import Mathlib

set_option maxRecDepth 4000
set_option maxHeartbeats 1000000

/-!
Verification development for scripts/torc_ops.py.

The script does all amount arithmetic with the Python Decimal type at a
context precision of 200 significant digits and rounding mode
round half to even.  We embed Decimal values as a sign, an integer
coefficient and an integer exponent (the value is sign * coeff * 10 ^ exp),
exactly the representation the Python implementation uses, and we embed
the context operations (multiplication, division, rounding to 200
significant digits) value-faithfully.  Strings are embedded as List Char.
Fallible Python code (uncaught ValueError and friends) is embedded with
Option / Except.  The chain client transport (the external cast process)
is embedded as an oracle describing the reply of each read; replies whose
textual decoding the claims are about (the decimals resolver, the reserve
query) are kept as strings, other reads are given as already decoded
integers.
-/

/-! ## Character and list utilities -/

/-- Python str.strip: drop whitespace from both ends. -/
def stripList (l : List Char) : List Char :=
  ((l.dropWhile Char.isWhitespace).reverse.dropWhile Char.isWhitespace).reverse

/-- Python str.endswith applied to the literal suffix wei. -/
def endsWithWei (l : List Char) : Bool :=
  match l.reverse with
  | 'i' :: 'e' :: 'w' :: _ => true
  | _ => false

/-- Value of a decimal digit character. -/
def digitVal (c : Char) : Nat := c.toNat - 48

/-- Accumulate a base-10 numeral (validity of the digits is checked by callers). -/
def natOfDigits (l : List Char) : Nat := l.foldl (fun a c => a * 10 + digitVal c) 0

/-- Split an optional leading sign off a numeral; true means negative. -/
def parseSign : List Char → Bool × List Char
  | '-' :: r => (true, r)
  | '+' :: r => (false, r)
  | l => (false, l)

/-- Python int(s) for base-10 literals: optional surrounding whitespace,
optional sign, then decimal digits only.  A 0x-prefixed string is NOT
accepted here, faithful to int() called with no base argument. -/
def parseIntBase10 (l : List Char) : Option Int :=
  let s := stripList l
  let p := parseSign s
  if p.2 ≠ [] ∧ p.2.all Char.isDigit then
    some (if p.1 then -(natOfDigits p.2 : Int) else (natOfDigits p.2 : Int))
  else none

def isHexDigitChar (c : Char) : Bool :=
  c.isDigit || ('a' ≤ c && c ≤ 'f') || ('A' ≤ c && c ≤ 'F')

def hexVal (c : Char) : Nat :=
  if c.isDigit then c.toNat - 48
  else if 'a' ≤ c ∧ c ≤ 'f' then c.toNat - 87
  else c.toNat - 55

/-- Digits after a 0x prefix, as accepted by Python int(s, 0). -/
def parseHexDigits (l : List Char) : Option Nat :=
  if l ≠ [] ∧ l.all isHexDigitChar then
    some (l.foldl (fun a c => a * 16 + hexVal c) 0)
  else none

/-- The pattern int(out, 0) if out.startswith("0x") else int(out) used by
token_decimals and the balance readers. -/
def parseIntAuto (l : List Char) : Option Int :=
  match l with
  | '0' :: 'x' :: r => (parseHexDigits r).map Int.ofNat
  | _ => parseIntBase10 l

/-! ## The Decimal value model -/

/-- A Python Decimal value: sign, coefficient, exponent.
The denoted value is (if neg then -1 else 1) * coeff * 10 ^ exp. -/
structure Dec where
  neg : Bool
  coeff : Nat
  exp : Int
deriving DecidableEq

/-- Python len(str(n)) for a nonnegative coefficient, by fuel recursion so
that it evaluates inside the kernel. -/
def pyDigitsAux : Nat → Nat → Nat
  | 0, _ => 0
  | f + 1, n => if n < 10 then 1 else pyDigitsAux f (n / 10) + 1

def pyDigits (n : Nat) : Nat := pyDigitsAux (n + 1) n

/-- Round a / b to the nearest integer, ties to even (b positive). -/
def rhEven (a b : Nat) : Nat :=
  let q := a / b
  let r := a % b
  if 2 * r < b then q
  else if b < 2 * r then q + 1
  else if q % 2 = 0 then q else q + 1

/-- Context normalisation at precision 200: if the coefficient has more than
200 digits, round it half-even to 200 digits and raise the exponent.
(When a round-up overflows to a 201-digit power of ten we keep that
coefficient; the value is identical to the renormalised form Python keeps,
and all uses below are value-level.) -/
def fixPrec (d : Dec) : Dec :=
  let t := pyDigits d.coeff
  if t ≤ 200 then d
  else ⟨d.neg, rhEven d.coeff (10 ^ (t - 200)), d.exp + (t - 200)⟩

/-- Decimal multiplication under the prec-200 context: exact product, then
rounded to the context precision. -/
def mulCtx (a b : Dec) : Dec :=
  fixPrec ⟨xor a.neg b.neg, a.coeff * b.coeff, a.exp + b.exp⟩

/-- Decimal(10) ** d under the prec-200 context.  For 0 ≤ d ≤ 199 Python
keeps the exact coefficient 10^d with exponent 0; for d ≥ 200 it keeps the
200-digit coefficient 10^199 and exponent d - 199; for negative d the exact
value 1 * 10^d.  All cases are exact in value. -/
def decPow10 (d : Int) : Dec :=
  if d < 0 then ⟨false, 1, d⟩
  else if d ≤ 199 then ⟨false, 10 ^ d.toNat, 0⟩
  else ⟨false, 10 ^ 199, d - 199⟩

/-- Adjusted exponent of the quotient n / m: the unique f with
10^f ≤ n/m < 10^(f+1), computed from digit counts and one comparison. -/
def adjExp (n m : Nat) : Int :=
  let g : Int := (pyDigits n : Int) - (pyDigits m : Int)
  if m * 10 ^ g.toNat ≤ n * 10 ^ (-g).toNat then g else g - 1

/-- The 200-significant-digit coefficient of n / m whose adjusted exponent
is f: round n/m * 10^(199-f) half-even to an integer. -/
def rhe (n m : Nat) (f : Int) : Nat :=
  rhEven (n * 10 ^ (199 - f).toNat) (m * 10 ^ (f - 199).toNat)

/-- Decimal division under the prec-200 context: the exact quotient
correctly rounded (half to even) to 200 significant digits.  Value-faithful
to Python division for a nonzero divisor; exact quotients are returned with
a 200-digit coefficient, which denotes the same value as the ideal-exponent
form Python keeps. -/
def divCtx (a b : Dec) : Dec :=
  if a.coeff = 0 then ⟨xor a.neg b.neg, 0, a.exp - b.exp⟩
  else
    let f := adjExp a.coeff b.coeff
    ⟨xor a.neg b.neg, rhe a.coeff b.coeff f, a.exp - b.exp + f - 199⟩

/-- Python int(Decimal): truncation toward zero. -/
def truncInt (d : Dec) : Int :=
  let mag : Nat :=
    if 0 ≤ d.exp then d.coeff * 10 ^ d.exp.toNat
    else d.coeff / 10 ^ (-d.exp).toNat
  if d.neg then -(mag : Int) else (mag : Int)

/-- Numerator of the exact rational value of a Dec (denominator qden). -/
def qnum (d : Dec) : Int :=
  let n : Int := (d.coeff : Int) * 10 ^ d.exp.toNat
  if d.neg then -n else n

/-- Denominator of the exact rational value of a Dec. -/
def qden (d : Dec) : Nat := 10 ^ (-d.exp).toNat

/-- Two Dec representations denote the same rational value. -/
def valEq (a b : Dec) : Prop := qnum a * (qden b : Int) = qnum b * (qden a : Int)

instance valEqDecidable (a b : Dec) : Decidable (valEq a b) := by
  unfold valEq; infer_instance

/-- A Dec from a Python int (sign and magnitude, exponent 0). -/
def decOfInt (n : Int) : Dec :=
  if n < 0 then ⟨true, (-n).toNat, 0⟩ else ⟨false, n.toNat, 0⟩

/-! ## The Decimal string constructor -/

/-- Optional signed integer exponent digits, as in 1.2e-5. -/
def parseSignedDigits (l : List Char) : Option Int :=
  let p := parseSign l
  if p.2 ≠ [] ∧ p.2.all Char.isDigit then
    some (if p.1 then -(natOfDigits p.2 : Int) else (natOfDigits p.2 : Int))
  else none

/-- The exponent part of a Decimal literal (empty, or e/E then signed digits). -/
def parseExpPart : List Char → Option Int
  | [] => some 0
  | 'e' :: r => parseSignedDigits r
  | 'E' :: r => parseSignedDigits r
  | _ => none

/-- Python Decimal(s) on finite numeric literals: optional sign, integer
digits, optional fraction, optional exponent; at least one digit overall;
construction is exact (no context rounding).  The coefficient keeps the
digits exactly as written (Decimal("1.500") has coefficient 1500). -/
def parseDecimalStr (l : List Char) : Option Dec :=
  let p := parseSign l
  let ip := p.2.takeWhile Char.isDigit
  let r2 := p.2.dropWhile Char.isDigit
  let fr : List Char × List Char :=
    match r2 with
    | '.' :: rest => (rest.takeWhile Char.isDigit, rest.dropWhile Char.isDigit)
    | _ => ([], r2)
  if ip = [] ∧ fr.1 = [] then none
  else
    match parseExpPart fr.2 with
    | none => none
    | some e => some ⟨p.1, natOfDigits (ip ++ fr.1), e - fr.1.length⟩

/-! ## Unit conversion (to_wei_with_decimals, to_wei_18) -/

/-- torc_ops.to_wei_with_decimals: strip; if the string ends in wei, parse
the remainder with int() (base 10) and return it unscaled; otherwise
int(Decimal(s) * Decimal(10) ** decimals).  none models an uncaught
Python exception (ValueError / InvalidOperation). -/
def to_wei_with_decimals (human : List Char) (decimals : Int) : Option Int :=
  let s := stripList human
  if endsWithWei s then parseIntBase10 (s.take (s.length - 3))
  else (parseDecimalStr s).map (fun v => truncInt (mulCtx v (decPow10 decimals)))

/-- torc_ops.to_wei_18: same body with the decimals fixed at 18. -/
def to_wei_18 (human : List Char) : Option Int := to_wei_with_decimals human 18

/-! ## The chain transport and token_decimals -/

/-- Outcome of one external cast invocation (subprocess.run). -/
inductive RunOutcome where
  | ok (stdout : List Char)
  | exitNonzero (stderr : List Char)
  | pyExc
deriving DecidableEq

/-- How a modelled call can fail: die()/sys.exit raises SystemExit (which
is not an Exception), any other Python exception is an ordinary one. -/
inductive Failure where
  | sysExit
  | exc
deriving DecidableEq

/-- torc_ops.run: return stripped stdout, or die() on a nonzero exit code
(die calls sys.exit, i.e. raises SystemExit). -/
def runCmd : RunOutcome → Except Failure (List Char)
  | .ok out => .ok (stripList out)
  | .exitNonzero _ => .error .sysExit
  | .pyExc => .error .exc

/-- First whitespace token of a string (out.split()[0] if out else out). -/
def firstToken (l : List Char) : List Char :=
  (l.dropWhile Char.isWhitespace).takeWhile (fun c => !c.isWhitespace)

/-- torc_ops.cast_call: run, then keep only the first token of the output. -/
def cast_call (r : RunOutcome) : Except Failure (List Char) :=
  match runCmd r with
  | .error e => .error e
  | .ok out => .ok (firstToken out)

/-- torc_ops.token_decimals.  The try/except around cast_call catches
Exception only; SystemExit raised by die() inside run() escapes it and
aborts the whole process. -/
def token_decimals (r : RunOutcome) : Except Failure Int :=
  match cast_call r with
  | .error .sysExit => .error .sysExit
  | .error .exc => .ok 18
  | .ok out =>
    if out = [] then .ok 18
    else
      match parseIntAuto (stripList out) with
      | some v => .ok v
      | none => .ok 18

/-! ## parse_bigint -/

def isBracketChar (c : Char) : Bool :=
  c = '[' || c = ']' || c = '(' || c = ')' || c = ','

/-- s.strip().strip("[](),"): whitespace strip, then bracket strip. -/
def stripBrackets (l : List Char) : List Char :=
  ((l.dropWhile isBracketChar).reverse.dropWhile isBracketChar).reverse

/-- torc_ops.parse_bigint: strip whitespace and bracket characters; a 0x or
-0x prefix is parsed as hex via int(s, 0); a string containing e, E or a
dot goes through int(Decimal(s)) (exact construction, truncation toward
zero); anything else through int(s). -/
def parse_bigint (l : List Char) : Option Int :=
  let s := stripBrackets (stripList l)
  match s with
  | '0' :: 'x' :: r => (parseHexDigits r).map Int.ofNat
  | '-' :: '0' :: 'x' :: r => (parseHexDigits r).map (fun n => -(n : Int))
  | _ =>
    if s.any (fun c => c = 'e' || c = 'E' || c = '.') then
      (parseDecimalStr s).map truncInt
    else parseIntBase10 s

/-! ## Formatting (dec_to_fixed, int_commas, dec_to_fixed_commas) -/

/-- Decimal digit characters of n, most significant first. -/
def natDigitsAux : Nat → Nat → List Char
  | 0, _ => []
  | f + 1, n =>
    if n < 10 then [Char.ofNat (48 + n)]
    else natDigitsAux f (n / 10) ++ [Char.ofNat (48 + n % 10)]

def natDigitsList (n : Nat) : List Char := natDigitsAux (n + 1) n

/-- Python format(d, "f"): fixed-point rendering with no exponent, from
the sign, coefficient and exponent of the Decimal representation. -/
def formatF (d : Dec) : List Char :=
  let ds := natDigitsList d.coeff
  let body :=
    if 0 ≤ d.exp then ds ++ List.replicate d.exp.toNat '0'
    else
      let k := (-d.exp).toNat
      if k < ds.length then ds.take (ds.length - k) ++ '.' :: ds.drop (ds.length - k)
      else '0' :: '.' :: (List.replicate (k - ds.length) '0' ++ ds)
  if d.neg then '-' :: body else body

/-- Strip every trailing occurrence of c (Python str.rstrip with one char). -/
def rstripChar (c : Char) (l : List Char) : List Char :=
  (l.reverse.dropWhile (fun x => x = c)).reverse

/-- torc_ops.dec_to_fixed: format(d, "f"), rstrip zeros, rstrip the dot,
falling back to "0" when everything got stripped. -/
def dec_to_fixed (d : Dec) : List Char :=
  let s := rstripChar '.' (rstripChar '0' (formatF d))
  if s = [] then ['0'] else s

/-- Insert a comma every three digits from the right. -/
def commaAux : Nat → List Char → List Char
  | 0, l => l
  | f + 1, l =>
    if l.length ≤ 3 then l
    else commaAux f (l.take (l.length - 3)) ++ ',' :: l.drop (l.length - 3)

/-- Python f-string grouping of int(n) with commas (torc_ops.int_commas on
a nonnegative integer). -/
def int_commas (n : Nat) : List Char := commaAux (natDigitsList n).length (natDigitsList n)

/-- Split at the first dot, as s.split(".", 1). -/
def splitAtDot : List Char → List Char × Option (List Char)
  | [] => ([], none)
  | '.' :: r => ([], some r)
  | c :: r =>
    let p := splitAtDot r
    (c :: p.1, p.2)

/-- torc_ops.dec_to_fixed_commas: dec_to_fixed, then re-group the integer
part (int(i) reparsed, comma formatted), keeping sign and fraction. -/
def dec_to_fixed_commas (d : Dec) : List Char :=
  let s := dec_to_fixed d
  let sp : Bool × List Char :=
    match s with
    | '-' :: r => (true, r)
    | _ => (false, s)
  let p := splitAtDot sp.2
  let ipc := int_commas (natOfDigits p.1)
  (if sp.1 then ['-'] else []) ++ ipc ++
    (match p.2 with
     | some f => '.' :: f
     | none => [])

/-! ## Transactions and approval (approve_exact_if_needed) -/

/-- The state-changing calls the handlers can submit.  Amount arguments are
carried as integers; the addresses do not vary in any claim and are
omitted from the constructors. -/
inductive Tx where
  | approve (amount : Int)
  | addLiquidityETH (amountTokenDesired amountTokenMin amountETHMin : Int)
      (deadline : Int) (value : Int)
  | removeLiquidityETH (supportingFOT : Bool)
      (liquidity amountTokenMin amountETHMin : Int) (deadline : Int)
deriving DecidableEq

/-- torc_ops.approve_exact_if_needed, transaction part: with the parsed
current allowance, do nothing if it already covers the amount; otherwise
approve 0 and then the exact amount. -/
def approveTxs (current amount : Int) : List Tx :=
  if current < amount then [Tx.approve 0, Tx.approve amount] else []

/-- Effect of a submitted transaction on the spender allowance. -/
def allowanceAfterTx (cur : Int) : Tx → Int
  | Tx.approve v => v
  | _ => cur

def allowanceAfter (cur : Int) (txs : List Tx) : Int :=
  txs.foldl allowanceAfterTx cur

/-! ## The lp:add-eth handler -/

/-- All failure modes of the two liquidity handlers. -/
inductive OpError where
  | insufficientToken
  | insufficientEth
  | insufficientLP
  | nothingToRemove
  | noPair
  | parseError
  | abort (f : Failure)
deriving DecidableEq

instance decEqExcept {ε α : Type} [DecidableEq ε] [DecidableEq α] :
    DecidableEq (Except ε α) := fun a b =>
  match a, b with
  | .ok v, .ok w =>
    match decEq v w with
    | isTrue h => isTrue (by rw [h])
    | isFalse h => isFalse (fun hh => h (by injection hh))
  | .ok _, .error _ => isFalse (fun h => Except.noConfusion h)
  | .error _, .ok _ => isFalse (fun h => Except.noConfusion h)
  | .error e, .error e2 =>
    match decEq e e2 with
    | isTrue h => isTrue (by rw [h])
    | isFalse h => isFalse (fun hh => h (by injection hh))

/-- What one handler invocation did: the state-changing transactions it
submitted, in order, and how it ended. -/
structure Outcome where
  txs : List Tx
  res : Except OpError Unit
deriving DecidableEq

/-- The chain replies the lp:add-eth handler reads, in preflight order.
The decimals reply is kept raw (its decoding is under test); the balance
and allowance reads are given as decoded integers. -/
structure ChainAdd where
  decimalsReply : RunOutcome
  torcBalance : Int
  ethBalance : Int
  allowance : Int
  timeNow : Int

/-- The lp:add-eth handler (torc_ops.py lines 569-637), faithful to the
order of the source: resolve decimals, convert amountTokenMin (token
decimals) and amountETHMin (18), resolve the deadline, convert the two
desired amounts, preflight both balances, approve exactly the desired
token amount if needed, then submit the single addLiquidityETH call with
the native value attached. -/
def lpAddEth (ch : ChainAdd) (amountTokenDesired amountETH : List Char)
    (amountTokenMin amountETHMin : List Char) (deadline : Option Int) : Outcome :=
  match token_decimals ch.decimalsReply with
  | .error f => ⟨[], .error (.abort f)⟩
  | .ok torcDecimals =>
  match to_wei_with_decimals amountTokenMin torcDecimals with
  | none => ⟨[], .error .parseError⟩
  | some amtTokenMin =>
  match to_wei_with_decimals amountETHMin 18 with
  | none => ⟨[], .error .parseError⟩
  | some amtEthMin =>
  let dl := deadline.getD (ch.timeNow + 300)
  match to_wei_with_decimals amountTokenDesired torcDecimals with
  | none => ⟨[], .error .parseError⟩
  | some tokenDesiredWei =>
  match to_wei_with_decimals amountETH 18 with
  | none => ⟨[], .error .parseError⟩
  | some ethWei =>
  if ch.torcBalance < tokenDesiredWei then ⟨[], .error .insufficientToken⟩
  else if ch.ethBalance < ethWei then ⟨[], .error .insufficientEth⟩
  else
    ⟨approveTxs ch.allowance tokenDesiredWei ++
      [Tx.addLiquidityETH tokenDesiredWei amtTokenMin amtEthMin dl ethWei],
     .ok ()⟩

/-! ## The lp:remove-eth handler -/

/-- The zero address literal the handler compares the pair address with. -/
def zeroAddrChars : List Char := '0' :: 'x' :: List.replicate 40 '0'

/-- The chain replies the remove handler reads. -/
structure ChainRemove where
  pairAddr : List Char
  lpBalance : Int
  allowance : Int
  timeNow : Int

/-- Resolution of the liquidity argument (torc_ops.py lines 660-669):
the literal all takes the whole LP balance (dying when it is zero), a wei
suffix takes the raw integer, anything else is scaled at 18 decimals. -/
def resolveLiquidity (lpBal : Int) (want : List Char) : Except OpError Int :=
  if want = ['a', 'l', 'l'] then
    if lpBal = 0 then .error .nothingToRemove else .ok lpBal
  else if endsWithWei want then
    match parseIntBase10 (want.take (want.length - 3)) with
    | none => .error .parseError
    | some v => .ok v
  else
    match to_wei_18 want with
    | none => .error .parseError
    | some v => .ok v

/-- The lp:remove-eth / lp:remove-eth-supporting handler (torc_ops.py
lines 640-704), faithful to the source order: parse the two raw-wei
minimums, resolve the deadline, check the pair exists, read the LP
balance, resolve the liquidity specifier, check the balance covers it,
approve the pair token, submit the removal. -/
def lpRemoveEth (supporting : Bool) (ch : ChainRemove) (liquidityArg : List Char)
    (amountTokenMinWei amountETHMinWei : List Char) (deadline : Option Int) : Outcome :=
  match parseIntBase10 amountTokenMinWei with
  | none => ⟨[], .error .parseError⟩
  | some amtTokenMin =>
  match parseIntBase10 amountETHMinWei with
  | none => ⟨[], .error .parseError⟩
  | some amtEthMin =>
  let dl := deadline.getD (ch.timeNow + 300)
  if ch.pairAddr.map Char.toLower = zeroAddrChars then ⟨[], .error .noPair⟩
  else
  match resolveLiquidity ch.lpBalance (stripList liquidityArg) with
  | .error e => ⟨[], .error e⟩
  | .ok liquidity =>
  if ch.lpBalance < liquidity then ⟨[], .error .insufficientLP⟩
  else
    ⟨approveTxs ch.allowance liquidity ++
      [Tx.removeLiquidityETH supporting liquidity amtTokenMin amtEthMin dl],
     .ok ()⟩

/-! ## Price quoting (quote_torc_price_per_eth) -/

inductive QuoteError where
  | emptyReserves
  | malformedReserves
  | indexError
  | bigintParseError
  | zeroReserves
deriving DecidableEq

/-- Python str.split() with no separator: split on whitespace runs. -/
def splitWsAux : Nat → List Char → List (List Char)
  | 0, _ => []
  | f + 1, l =>
    let l1 := l.dropWhile Char.isWhitespace
    if l1 = [] then []
    else l1.takeWhile (fun c => !c.isWhitespace) ::
      splitWsAux f (l1.dropWhile (fun c => !c.isWhitespace))

def splitWs (l : List Char) : List (List Char) := splitWsAux l.length l

/-- Reserve extraction (torc_ops.py lines 271-279): reject an empty reply,
then a reply with fewer than two whitespace fields, then parse field 0 as
reserve0 and field 2 as reserve1 (an out-of-range index is an uncaught
IndexError, a failed parse an uncaught exception from parse_bigint). -/
def reserveFields (reservesRaw : List Char) : Except QuoteError (Int × Int) :=
  if stripList reservesRaw = [] then .error .emptyReserves
  else
    let parts := splitWs reservesRaw
    if parts.length < 2 then .error .malformedReserves
    else
      match parts[0]? with
      | none => .error .indexError
      | some p0 =>
      match parse_bigint p0 with
      | none => .error .bigintParseError
      | some r0 =>
      match parts[2]? with
      | none => .error .indexError
      | some p2 =>
      match parse_bigint p2 with
      | none => .error .bigintParseError
      | some r1 => .ok (r0, r1)

/-- Price computation (torc_ops.py lines 281-297): assign the reserve
slots by comparing token0 with the TORC address case-insensitively, reject
zero reserves, then price = (Decimal(reserve_eth) / Decimal(10) ** dec_other)
/ (Decimal(reserve_torc) / Decimal(10) ** dec_torc). -/
def quotePriceCore (t0 torc : List Char) (r0 r1 : Int) (decTorc decOther : Int) :
    Except QuoteError (Dec × Int × Int) :=
  let slots : Int × Int :=
    if t0.map Char.toLower = torc.map Char.toLower then (r0, r1) else (r1, r0)
  if slots.1 = 0 ∨ slots.2 = 0 then .error .zeroReserves
  else
    .ok (divCtx (divCtx (decOfInt slots.2) (decPow10 decOther))
           (divCtx (decOfInt slots.1) (decPow10 decTorc)),
         slots.1, slots.2)

/-- torc_ops.quote_torc_price_per_eth from the reserve reply onward (the
pair lookup preceding it is address plumbing; the decimals of both tokens
arrive through token_decimals). -/
def quote_torc_price_per_eth (reservesRaw : List Char) (t0 torc : List Char)
    (decTorc decOther : Int) : Except QuoteError (Dec × Int × Int) :=
  match reserveFields reservesRaw with
  | .error e => .error e
  | .ok rs => quotePriceCore t0 torc rs.1 rs.2 decTorc decOther

/-! ## Specification-side definitions -/

/-- Exact scaling as the spec words it: the integer part of s * 10^d with
truncation toward zero, taken on the exactly parsed decimal value. -/
def to_smallest_unit_exact (v : Dec) (d : Int) : Int :=
  truncInt ⟨v.neg, v.coeff, v.exp + d⟩

/-- The price the amended claim C5 names: the single correctly rounded
(200 significant digits, half to even) division of
reserveEth * 10^decTorc by reserveTorc * 10^decOther, which is the
context rounding of the exact ratio
(reserveEth / 10^decOther) / (reserveTorc / 10^decTorc). -/
def roundedRatio200 (reserveEth reserveTorc : Nat) (decTorc decOther : Nat) : Dec :=
  divCtx ⟨false, reserveEth * 10 ^ decTorc, 0⟩ ⟨false, reserveTorc * 10 ^ decOther, 0⟩

/-- Discriminator for the insufficient-balance failures. -/
def isInsufficient : Except OpError Unit → Bool
  | .error .insufficientToken => true
  | .error .insufficientEth => true
  | .error .insufficientLP => true
  | _ => false

/-- The comparison 10^g ≤ n / m, written multiplicatively (one of the two
toNat exponents is zero).  The condition inside adjExp is exactly this. -/
@[reducible] def ratGe (n m : Nat) (g : Int) : Prop :=
  m * 10 ^ g.toNat ≤ n * 10 ^ (-g).toNat

/-! ## Digit-count lemmas -/

theorem pyDigitsAux_bounds : ∀ f n, 0 < n → n ≤ f →
    10 ^ (pyDigitsAux f n - 1) ≤ n ∧ n < 10 ^ pyDigitsAux f n := by
  intro f
  induction f with
  | zero => intro n h1 h2; omega
  | succ f ih =>
    intro n h1 h2
    by_cases hlt : n < 10
    · have hv : pyDigitsAux (f + 1) n = 1 := by
        have hstep : pyDigitsAux (f + 1) n =
            if n < 10 then 1 else pyDigitsAux f (n / 10) + 1 := rfl
        rw [hstep]
        simp [hlt]
      rw [hv]; simp; omega
    · have hrec : pyDigitsAux (f + 1) n = pyDigitsAux f (n / 10) + 1 := by
        have hstep : pyDigitsAux (f + 1) n =
            if n < 10 then 1 else pyDigitsAux f (n / 10) + 1 := rfl
        rw [hstep]
        simp [hlt]
      rw [hrec]
      have hd : 0 < n / 10 := Nat.div_pos (by omega) (by norm_num)
      have hf : n / 10 ≤ f := by
        have := Nat.div_lt_self h1 (by norm_num : (1:Nat) < 10)
        omega
      obtain ⟨l, u⟩ := ih (n / 10) hd hf
      have hd1 : 1 ≤ pyDigitsAux f (n / 10) := by
        by_contra hcon
        have h0 : pyDigitsAux f (n / 10) = 0 := by omega
        rw [h0] at u
        simp at u
        omega
      set d := pyDigitsAux f (n / 10) with hdd
      have e1 : 10 ^ d = 10 * 10 ^ (d - 1) := by
        obtain ⟨k, hk⟩ : ∃ k, d = k + 1 := ⟨d - 1, by omega⟩
        rw [hk]
        simp [pow_succ]
        ring
      have e2 : 10 ^ (d + 1) = 10 * 10 ^ d := by rw [pow_succ]; ring
      have hmul : 10 * 10 ^ (d - 1) ≤ 10 * (n / 10) := Nat.mul_le_mul_left 10 l
      constructor
      · simp only [Nat.add_sub_cancel]
        omega
      · omega

theorem pyDigits_bounds (n : Nat) (h : 0 < n) :
    10 ^ (pyDigits n - 1) ≤ n ∧ n < 10 ^ pyDigits n :=
  pyDigitsAux_bounds (n + 1) n h (by omega)

theorem pyDigits_pos (n : Nat) (h : 0 < n) : 1 ≤ pyDigits n := by
  obtain ⟨_, u⟩ := pyDigits_bounds n h
  by_contra hc
  have h0 : pyDigits n = 0 := by omega
  rw [h0] at u
  simp at u
  omega

theorem pyDigits_unique (n k : Nat) (hn : 0 < n) (hk : 1 ≤ k)
    (h1 : 10 ^ (k - 1) ≤ n) (h2 : n < 10 ^ k) : pyDigits n = k := by
  obtain ⟨l, u⟩ := pyDigits_bounds n hn
  have ht := pyDigits_pos n hn
  by_contra hne
  rcases Nat.lt_or_ge (pyDigits n) k with hlt | hge
  · have hp : 10 ^ pyDigits n ≤ 10 ^ (k - 1) :=
      Nat.pow_le_pow_right (by norm_num) (by omega)
    omega
  · have hgt : k < pyDigits n := by omega
    have hp : 10 ^ k ≤ 10 ^ (pyDigits n - 1) :=
      Nat.pow_le_pow_right (by norm_num) (by omega)
    omega

theorem pyDigits_pow10 (d : Nat) : pyDigits (10 ^ d) = d + 1 := by
  apply pyDigits_unique
  · exact pow_pos (by norm_num) d
  · omega
  · simp
  · exact Nat.pow_lt_pow_right (by norm_num) (by omega)

theorem pyDigits_mul_pow10 (n j : Nat) (hn : 0 < n) :
    pyDigits (n * 10 ^ j) = pyDigits n + j := by
  obtain ⟨l, u⟩ := pyDigits_bounds n hn
  have ht := pyDigits_pos n hn
  apply pyDigits_unique
  · positivity
  · omega
  · have hsplit : 10 ^ (pyDigits n + j - 1) = 10 ^ (pyDigits n - 1) * 10 ^ j := by
      rw [← pow_add]
      congr 1
      omega
    rw [hsplit]
    exact Nat.mul_le_mul_right _ l
  · have hsplit : 10 ^ (pyDigits n + j) = 10 ^ pyDigits n * 10 ^ j := by rw [← pow_add]
    rw [hsplit]
    exact (Nat.mul_lt_mul_right (pow_pos (by norm_num) j)).mpr u

theorem pyDigits_le_of_lt (n k : Nat) (hn : 0 < n) (h : n < 10 ^ k) : pyDigits n ≤ k := by
  obtain ⟨l, _⟩ := pyDigits_bounds n hn
  have ht := pyDigits_pos n hn
  by_contra hc
  have hp : 10 ^ k ≤ 10 ^ (pyDigits n - 1) :=
    Nat.pow_le_pow_right (by norm_num) (by omega)
  omega

/-! ## Half-even rounding lemmas -/

theorem rhEven_dvd (a b : Nat) (hb : 0 < b) (h : b ∣ a) : rhEven a b = a / b := by
  unfold rhEven
  have hr : a % b = 0 := Nat.mod_eq_zero_of_dvd h
  simp [hr, hb]

theorem rhEven_one (a : Nat) : rhEven a 1 = a := by
  unfold rhEven
  have h1 : a % 1 = 0 := Nat.mod_one a
  simp [h1, Nat.div_one]

theorem rhEven_mul_right (a b k : Nat) (hk : 0 < k) :
    rhEven (a * k) (b * k) = rhEven a b := by
  unfold rhEven
  have hq : a * k / (b * k) = a / b := Nat.mul_div_mul_right a b hk
  have hr : a * k % (b * k) = a % b * k := Nat.mul_mod_mul_right k a b
  rw [hq, hr]
  have c1 : (2 * (a % b * k) < b * k) ↔ (2 * (a % b) < b) := by
    rw [← mul_assoc]
    exact Nat.mul_lt_mul_right hk
  have c2 : (b * k < 2 * (a % b * k)) ↔ (b < 2 * (a % b)) := by
    rw [← mul_assoc]
    exact Nat.mul_lt_mul_right hk
  simp only [c1, c2]

/-! ## Adjusted-exponent lemmas -/

theorem natMulLeMulRight (a b k : Nat) (hk : 0 < k) : a * k ≤ b * k ↔ a ≤ b := by
  constructor
  · intro h
    exact Nat.le_of_mul_le_mul_right h hk
  · intro h
    exact Nat.mul_le_mul_right k h

theorem ratGe_iff (n m : Nat) (g : Int) (p q : Nat) (h : (p : Int) - q = g) :
    ratGe n m g ↔ m * 10 ^ p ≤ n * 10 ^ q := by
  unfold ratGe
  rcases le_or_lt 0 g with hg | hg
  · have h1 : g.toNat = p - q := by omega
    have h2 : (-g).toNat = 0 := by omega
    have hsplit : 10 ^ p = 10 ^ (p - q) * 10 ^ q := by
      rw [← pow_add]
      congr 1
      omega
    rw [h1, h2, hsplit, pow_zero, mul_one, ← mul_assoc]
    exact (natMulLeMulRight _ _ _ (pow_pos (by norm_num) q)).symm
  · have h1 : g.toNat = 0 := by omega
    have h2 : (-g).toNat = q - p := by omega
    have hsplit : 10 ^ q = 10 ^ (q - p) * 10 ^ p := by
      rw [← pow_add]
      congr 1
      omega
    rw [h1, h2, hsplit, pow_zero, mul_one, ← mul_assoc]
    exact (natMulLeMulRight _ _ _ (pow_pos (by norm_num) p)).symm

theorem ratGe_of_le (n m : Nat) (g g' : Int) (hg : g' ≤ g) (h : ratGe n m g) :
    ratGe n m g' := by
  have hN : ∀ x : Int, x + (g.natAbs + g'.natAbs : Nat) ≥ 0 → True := fun _ _ => trivial
  set N : Nat := g.natAbs + g'.natAbs with hNdef
  have e1 : ratGe n m g ↔ m * 10 ^ (g + N).toNat ≤ n * 10 ^ N :=
    ratGe_iff n m g (g + N).toNat N (by omega)
  have e2 : ratGe n m g' ↔ m * 10 ^ (g' + N).toNat ≤ n * 10 ^ N :=
    ratGe_iff n m g' (g' + N).toNat N (by omega)
  rw [e2]
  rw [e1] at h
  calc m * 10 ^ (g' + N).toNat
      ≤ m * 10 ^ (g + N).toNat := by
        apply Nat.mul_le_mul_left
        exact Nat.pow_le_pow_right (by norm_num) (by omega)
    _ ≤ n * 10 ^ N := h

theorem adjExp_if_eq (n m : Nat) :
    adjExp n m = if ratGe n m ((pyDigits n : Int) - (pyDigits m : Int))
      then (pyDigits n : Int) - (pyDigits m : Int)
      else (pyDigits n : Int) - (pyDigits m : Int) - 1 := rfl

theorem adjExp_spec (n m : Nat) (hn : 0 < n) (hm : 0 < m) :
    ratGe n m (adjExp n m) ∧ ¬ ratGe n m (adjExp n m + 1) := by
  obtain ⟨ln, un⟩ := pyDigits_bounds n hn
  obtain ⟨lm, um⟩ := pyDigits_bounds m hm
  have htn := pyDigits_pos n hn
  have htm := pyDigits_pos m hm
  rw [adjExp_if_eq]
  by_cases hc : ratGe n m ((pyDigits n : Int) - (pyDigits m : Int))
  · rw [if_pos hc]
    refine ⟨hc, ?_⟩
    rw [ratGe_iff n m _ (pyDigits n + 1) (pyDigits m) (by push_cast; ring)]
    intro habs
    have h1 : 10 ^ (pyDigits m - 1) * 10 ^ (pyDigits n + 1) ≤ m * 10 ^ (pyDigits n + 1) :=
      Nat.mul_le_mul_right _ lm
    have h2 : n * 10 ^ pyDigits m < 10 ^ pyDigits n * 10 ^ pyDigits m :=
      (Nat.mul_lt_mul_right (pow_pos (by norm_num) _)).mpr un
    have e1 : 10 ^ (pyDigits m - 1) * 10 ^ (pyDigits n + 1) =
        10 ^ pyDigits n * 10 ^ pyDigits m := by
      rw [← pow_add, ← pow_add]
      congr 1
      omega
    omega
  · rw [if_neg hc]
    constructor
    · rw [ratGe_iff n m _ (pyDigits n) (pyDigits m + 1) (by push_cast; ring)]
      have h1 : m * 10 ^ pyDigits n < 10 ^ pyDigits m * 10 ^ pyDigits n :=
        (Nat.mul_lt_mul_right (pow_pos (by norm_num) _)).mpr um
      have h2 : 10 ^ (pyDigits n - 1) * 10 ^ (pyDigits m + 1) ≤ n * 10 ^ (pyDigits m + 1) :=
        Nat.mul_le_mul_right _ ln
      have e1 : 10 ^ (pyDigits n - 1) * 10 ^ (pyDigits m + 1) =
          10 ^ pyDigits m * 10 ^ pyDigits n := by
        rw [← pow_add, ← pow_add]
        congr 1
        omega
      omega
    · have he : (pyDigits n : Int) - (pyDigits m : Int) - 1 + 1 =
          (pyDigits n : Int) - (pyDigits m : Int) := by ring
      rw [he]
      exact hc

theorem adjExp_unique (n m : Nat) (hn : 0 < n) (hm : 0 < m) (f : Int)
    (h1 : ratGe n m f) (h2 : ¬ ratGe n m (f + 1)) : adjExp n m = f := by
  obtain ⟨s1, s2⟩ := adjExp_spec n m hn hm
  by_contra hne
  rcases lt_or_gt_of_ne hne with hlt | hgt
  · exact s2 (ratGe_of_le n m f (adjExp n m + 1) (by omega) h1)
  · exact h2 (ratGe_of_le n m (adjExp n m) (f + 1) (by omega) s1)

theorem ratGe_num_shift (n m : Nat) (α : Nat) (h : Int) :
    ratGe (n * 10 ^ α) m h ↔ ratGe n m (h - α) := by
  set K : Nat := h.natAbs + α with hK
  have e1 : ratGe (n * 10 ^ α) m h ↔
      m * 10 ^ (h + K).toNat ≤ n * 10 ^ α * 10 ^ K :=
    ratGe_iff _ _ h (h + K).toNat K (by omega)
  have e2 : ratGe n m (h - α) ↔
      m * 10 ^ (h + K).toNat ≤ n * 10 ^ (K + α) := by
    have := ratGe_iff n m (h - α) (h + K).toNat (K + α) (by push_cast; omega)
    rw [this]
  rw [e1, e2, mul_assoc, ← pow_add]
  constructor
  · intro hx
    have : α + K = K + α := by ring
    rw [this] at hx
    exact hx
  · intro hx
    have : α + K = K + α := by ring
    rw [this]
    exact hx

theorem ratGe_den_shift (n m : Nat) (β : Nat) (h : Int) :
    ratGe n (m * 10 ^ β) h ↔ ratGe n m (h + β) := by
  set K : Nat := h.natAbs + β with hK
  have e1 : ratGe n (m * 10 ^ β) h ↔
      m * 10 ^ β * 10 ^ (h + K).toNat ≤ n * 10 ^ K :=
    ratGe_iff _ _ h (h + K).toNat K (by omega)
  have e2 : ratGe n m (h + β) ↔
      m * 10 ^ (h + β + K).toNat ≤ n * 10 ^ K :=
    ratGe_iff _ _ (h + β) (h + β + K).toNat K (by omega)
  rw [e1, e2, mul_assoc, ← pow_add]
  have e3 : β + (h + K).toNat = (h + β + K).toNat := by omega
  rw [e3]

theorem adjExp_num_shift (n m : Nat) (hn : 0 < n) (hm : 0 < m) (α : Nat) :
    adjExp (n * 10 ^ α) m = adjExp n m + α := by
  obtain ⟨s1, s2⟩ := adjExp_spec n m hn hm
  apply adjExp_unique _ _ (by positivity) hm
  · rw [ratGe_num_shift]
    have he : adjExp n m + α - α = adjExp n m := by ring
    rw [he]
    exact s1
  · rw [ratGe_num_shift]
    have he : adjExp n m + α + 1 - α = adjExp n m + 1 := by ring
    rw [he]
    exact s2

theorem adjExp_den_shift (n m : Nat) (hn : 0 < n) (hm : 0 < m) (β : Nat) :
    adjExp n (m * 10 ^ β) = adjExp n m - β := by
  obtain ⟨s1, s2⟩ := adjExp_spec n m hn hm
  apply adjExp_unique _ _ hn (by positivity)
  · rw [ratGe_den_shift]
    have he : adjExp n m - β + β = adjExp n m := by ring
    rw [he]
    exact s1
  · rw [ratGe_den_shift]
    have he : adjExp n m - β + 1 + β = adjExp n m + 1 := by ring
    rw [he]
    exact s2

/-! ## Division shift lemmas -/

theorem rhe_num_shift (n m : Nat) (α : Nat) (F : Int) :
    rhe (n * 10 ^ α) m (F + α) = rhe n m F := by
  unfold rhe
  obtain ⟨c, hQ, hP⟩ : ∃ c : Nat,
      (F + α - 199).toNat = (F - 199).toNat + c ∧
      α + (199 - (F + α)).toNat = (199 - F).toNat + c := by
    refine ⟨(F + α - 199).toNat - (F - 199).toNat, ?_, ?_⟩ <;> omega
  have e1 : n * 10 ^ α * 10 ^ (199 - (F + α)).toNat =
      n * 10 ^ (199 - F).toNat * 10 ^ c := by
    rw [mul_assoc, ← pow_add, hP, pow_add, ← mul_assoc]
  have e2 : m * 10 ^ (F + α - 199).toNat =
      m * 10 ^ (F - 199).toNat * 10 ^ c := by
    rw [hQ, pow_add, ← mul_assoc]
  rw [e1, e2, rhEven_mul_right _ _ _ (pow_pos (by norm_num) c)]

theorem rhe_den_shift (n m : Nat) (β : Nat) (F : Int) :
    rhe n (m * 10 ^ β) (F - β) = rhe n m F := by
  unfold rhe
  obtain ⟨c, hP, hQ⟩ : ∃ c : Nat,
      (199 - (F - β)).toNat = (199 - F).toNat + c ∧
      β + (F - β - 199).toNat = (F - 199).toNat + c := by
    refine ⟨(199 - (F - β)).toNat - (199 - F).toNat, ?_, ?_⟩ <;> omega
  have e1 : n * 10 ^ (199 - (F - β)).toNat =
      n * 10 ^ (199 - F).toNat * 10 ^ c := by
    rw [hP, pow_add, ← mul_assoc]
  have e2 : m * 10 ^ β * 10 ^ (F - β - 199).toNat =
      m * 10 ^ (F - 199).toNat * 10 ^ c := by
    rw [mul_assoc, ← pow_add, hQ, pow_add, ← mul_assoc]
  rw [e1, e2, rhEven_mul_right _ _ _ (pow_pos (by norm_num) c)]

theorem divCtx_mk (s s2 : Bool) (n m : Nat) (e f : Int) (hn : n ≠ 0) :
    divCtx ⟨s, n, e⟩ ⟨s2, m, f⟩ =
      ⟨xor s s2, rhe n m (adjExp n m), e - f + adjExp n m - 199⟩ := by
  unfold divCtx
  simp [hn]

theorem divCtx_num_shift (s s2 : Bool) (n m : Nat) (e f : Int) (α : Nat)
    (hn : 0 < n) (hm : 0 < m) :
    divCtx ⟨s, n * 10 ^ α, e - α⟩ ⟨s2, m, f⟩ = divCtx ⟨s, n, e⟩ ⟨s2, m, f⟩ := by
  rw [divCtx_mk _ _ _ _ _ _ (by positivity), divCtx_mk _ _ _ _ _ _ (by omega)]
  rw [adjExp_num_shift n m hn hm α, rhe_num_shift]
  congr 1
  omega

theorem divCtx_den_shift (s s2 : Bool) (n m : Nat) (e f : Int) (β : Nat)
    (hn : 0 < n) (hm : 0 < m) :
    divCtx ⟨s, n, e⟩ ⟨s2, m * 10 ^ β, f - β⟩ = divCtx ⟨s, n, e⟩ ⟨s2, m, f⟩ := by
  rw [divCtx_mk _ _ _ _ _ _ (by omega), divCtx_mk _ _ _ _ _ _ (by omega)]
  rw [adjExp_den_shift n m hn hm β, rhe_den_shift]
  congr 1
  omega

theorem divCtx_exp_shift (s s2 : Bool) (n m : Nat) (e f e2 f2 : Int)
    (hn : n ≠ 0) (h : e - f = e2 - f2) :
    divCtx ⟨s, n, e⟩ ⟨s2, m, f⟩ = divCtx ⟨s, n, e2⟩ ⟨s2, m, f2⟩ := by
  rw [divCtx_mk _ _ _ _ _ _ hn, divCtx_mk _ _ _ _ _ _ hn]
  congr 1
  omega

theorem divCtx_int_pow (s : Bool) (r d : Nat) (hr : 0 < r) (h200 : pyDigits r ≤ 200) :
    divCtx ⟨s, r, 0⟩ ⟨false, 10 ^ d, 0⟩ =
      ⟨s, r * 10 ^ (200 - pyDigits r), (pyDigits r : Int) - 200 - d⟩ := by
  have ht := pyDigits_pos r hr
  have hA : adjExp r (10 ^ d) = (pyDigits r : Int) - 1 - d := by
    apply adjExp_unique r (10 ^ d) hr (pow_pos (by norm_num) d)
    · rw [ratGe_iff r (10 ^ d) _ (pyDigits r - 1) d (by omega)]
      calc 10 ^ d * 10 ^ (pyDigits r - 1)
          = 10 ^ (pyDigits r - 1) * 10 ^ d := by ring
        _ ≤ r * 10 ^ d := Nat.mul_le_mul_right _ (pyDigits_bounds r hr).1
    · have he : (pyDigits r : Int) - 1 - d + 1 = (pyDigits r : Int) - d := by ring
      rw [he, ratGe_iff r (10 ^ d) _ (pyDigits r) d (by omega)]
      intro habs
      have h2 : (10:Nat) ^ d * 10 ^ pyDigits r = 10 ^ pyDigits r * 10 ^ d := by ring
      rw [h2] at habs
      have h3 := Nat.le_of_mul_le_mul_right habs (pow_pos (by norm_num : (0:Nat) < 10) d)
      have h4 := (pyDigits_bounds r hr).2
      omega
  rw [divCtx_mk _ _ _ _ _ _ (by omega), hA]
  have hcoeff : rhe r (10 ^ d) ((pyDigits r : Int) - 1 - d) =
      r * 10 ^ (200 - pyDigits r) := by
    unfold rhe
    have e1 : (199 - ((pyDigits r : Int) - 1 - d)).toNat = (200 - pyDigits r) + d := by
      omega
    have e2 : ((pyDigits r : Int) - 1 - d - 199).toNat = 0 := by omega
    rw [e1, e2, pow_zero, mul_one, pow_add, ← mul_assoc]
    have hone : (10:Nat) ^ d = 1 * 10 ^ d := by ring
    nth_rewrite 2 [hone]
    rw [rhEven_mul_right _ _ _ (pow_pos (by norm_num) d), rhEven_one]
  rw [hcoeff]
  have hexp : (0:Int) - 0 + ((pyDigits r : Int) - 1 - (d:Int)) - 199 =
      (pyDigits r : Int) - 200 - (d:Int) := by ring
  rw [hexp]
  simp

theorem divCtx_decPow10_nat (sb : Bool) (n : Nat) (e : Int) (d : Nat) (hn : 0 < n) :
    divCtx ⟨sb, n, e⟩ (decPow10 (d : Int)) = divCtx ⟨sb, n, e⟩ ⟨false, 10 ^ d, 0⟩ := by
  unfold decPow10
  rw [if_neg (by omega : ¬ ((d : Int) < 0))]
  by_cases h2 : (d : Int) ≤ 199
  · rw [if_pos h2]
    have he : ((d : Int)).toNat = d := by omega
    rw [he]
  · rw [if_neg h2]
    have hd : 200 ≤ d := by omega
    have hsplit : (10:Nat) ^ d = 10 ^ 199 * 10 ^ (d - 199) := by
      rw [← pow_add]
      congr 1
      omega
    have hzero : (0 : Int) = ((d : Int) - 199) - ((d - 199 : Nat) : Int) := by
      omega
    rw [hsplit, hzero]
    exact (divCtx_den_shift sb false n (10 ^ 199) e ((d : Int) - 199) (d - 199) hn
      (pow_pos (by norm_num) 199)).symm

/-- The composed quotient the lp:quote price computes, for positive
reserves below 10^200 and token decimals given as naturals: it equals the
single rounded division of the cross-scaled integer reserves. -/
theorem quote_div_chain (rEth rTorc : Nat) (dTorc dOther : Nat)
    (hE : 0 < rEth) (hT : 0 < rTorc) (hE2 : rEth < 10 ^ 200) (hT2 : rTorc < 10 ^ 200) :
    divCtx (divCtx ⟨false, rEth, 0⟩ (decPow10 (dOther : Int)))
        (divCtx ⟨false, rTorc, 0⟩ (decPow10 (dTorc : Int))) =
      roundedRatio200 rEth rTorc dTorc dOther := by
  have htE := pyDigits_pos rEth hE
  have htT := pyDigits_pos rTorc hT
  have hdE : pyDigits rEth ≤ 200 := pyDigits_le_of_lt rEth 200 hE hE2
  have hdT : pyDigits rTorc ≤ 200 := pyDigits_le_of_lt rTorc 200 hT hT2
  rw [divCtx_decPow10_nat false rEth 0 dOther hE,
    divCtx_decPow10_nat false rTorc 0 dTorc hT,
    divCtx_int_pow false rEth dOther hE hdE,
    divCtx_int_pow false rTorc dTorc hT hdT]
  have heE : (pyDigits rEth : Int) - 200 - (dOther : Int) =
      (-(dOther : Int)) - ((200 - pyDigits rEth : Nat) : Int) := by omega
  have heT : (pyDigits rTorc : Int) - 200 - (dTorc : Int) =
      (-(dTorc : Int)) - ((200 - pyDigits rTorc : Nat) : Int) := by omega
  rw [heE, heT]
  rw [divCtx_num_shift false false rEth (rTorc * 10 ^ (200 - pyDigits rTorc))
    (-(dOther : Int)) ((-(dTorc : Int)) - ((200 - pyDigits rTorc : Nat) : Int))
    (200 - pyDigits rEth) hE (by positivity)]
  rw [divCtx_den_shift false false rEth rTorc (-(dOther : Int)) (-(dTorc : Int))
    (200 - pyDigits rTorc) hE hT]
  unfold roundedRatio200
  have hz : (0 : Int) = (dTorc : Int) - (dTorc : Int) := by ring
  nth_rewrite 1 [hz]
  rw [divCtx_num_shift false false rEth (rTorc * 10 ^ dOther) ((dTorc : Int)) 0 dTorc hE
    (by positivity)]
  have hz2 : (0 : Int) = (dOther : Int) - (dOther : Int) := by ring
  nth_rewrite 1 [hz2]
  rw [divCtx_den_shift false false rEth rTorc ((dTorc : Int)) ((dOther : Int)) dOther hE hT]
  exact divCtx_exp_shift false false rEth rTorc (-(dOther : Int)) (-(dTorc : Int))
    ((dTorc : Int)) ((dOther : Int)) (by omega) (by ring)

/-! ## Truncation lemmas -/

theorem truncInt_shift (sb : Bool) (c : Nat) (j : Nat) (e : Int) :
    truncInt ⟨sb, c * 10 ^ j, e⟩ = truncInt ⟨sb, c, e + j⟩ := by
  unfold truncInt
  rcases le_or_lt 0 e with he | he
  · rw [if_pos he, if_pos (by omega : (0:Int) ≤ e + j)]
    have h1 : (e + j).toNat = e.toNat + j := by omega
    rw [h1, pow_add, mul_assoc]
    ring_nf
  · rw [if_neg (by omega : ¬ (0:Int) ≤ e)]
    rcases le_or_lt 0 (e + j) with he2 | he2
    · rw [if_pos he2]
      have h2 : c * 10 ^ j = c * 10 ^ (e + j).toNat * 10 ^ (-e).toNat := by
        rw [mul_assoc, ← pow_add]
        congr 2
        omega
      rw [h2, Nat.mul_div_cancel _ (pow_pos (by norm_num) _)]
    · rw [if_neg (by omega : ¬ (0:Int) ≤ e + j)]
      have h1 : (-e).toNat = j + (-(e + j)).toNat := by omega
      have h2 : (10:Nat) ^ (-e).toNat = 10 ^ j * 10 ^ (-(e + j)).toNat := by
        rw [← pow_add, h1]
      rw [h2]
      have h3 : c * 10 ^ j / (10 ^ j * 10 ^ (-(e + j)).toNat) =
          c / 10 ^ (-(e + j)).toNat := by
        rw [mul_comm c (10 ^ j), Nat.mul_div_mul_left _ _ (pow_pos (by norm_num) j)]
      rw [h3]

theorem fixPrec_mk (sb : Bool) (c : Nat) (e : Int) : fixPrec ⟨sb, c, e⟩ =
    if pyDigits c ≤ 200 then ⟨sb, c, e⟩
    else ⟨sb, rhEven c (10 ^ (pyDigits c - 200)), e + ((pyDigits c : Int) - 200)⟩ :=
  rfl

theorem truncInt_zero (sb : Bool) (e : Int) : truncInt ⟨sb, 0, e⟩ = 0 := by
  unfold truncInt
  rcases le_or_lt 0 e with he | he
  · simp [he]
  · rw [if_neg (by omega : ¬ (0:Int) ≤ e)]
    simp

theorem fixPrec_trunc (sb : Bool) (c : Nat) (j : Nat) (e : Int)
    (hc : pyDigits c ≤ 200) :
    truncInt (fixPrec ⟨sb, c * 10 ^ j, e⟩) = truncInt ⟨sb, c, e + j⟩ := by
  by_cases hz : c = 0
  · subst hz
    rw [zero_mul, fixPrec_mk]
    rw [if_pos (by decide : pyDigits 0 ≤ 200)]
    rw [truncInt_zero, truncInt_zero]
  · have hcp : 0 < c := Nat.pos_of_ne_zero hz
    have hD : pyDigits (c * 10 ^ j) = pyDigits c + j := pyDigits_mul_pow10 c j hcp
    rw [fixPrec_mk, hD]
    split
    · exact truncInt_shift sb c j e
    · have hkj : pyDigits c + j - 200 ≤ j := by omega
      have hsplitp : (10:Nat) ^ j =
          10 ^ (j - (pyDigits c + j - 200)) * 10 ^ (pyDigits c + j - 200) := by
        rw [← pow_add]
        congr 1
        omega
      have hdvd : (10:Nat) ^ (pyDigits c + j - 200) ∣ c * 10 ^ j :=
        ⟨c * 10 ^ (j - (pyDigits c + j - 200)), by rw [hsplitp]; ring⟩
      rw [rhEven_dvd _ _ (pow_pos (by norm_num) _) hdvd]
      have hquot : c * 10 ^ j / 10 ^ (pyDigits c + j - 200) =
          c * 10 ^ (j - (pyDigits c + j - 200)) := by
        rw [hsplitp, ← mul_assoc, Nat.mul_div_cancel _ (pow_pos (by norm_num) _)]
      rw [hquot, truncInt_shift]
      congr 1
      simp only [Dec.mk.injEq, true_and]
      omega

/-! ## Exactness of the conversion for significands within precision -/

theorem mulCtx_decPow10_trunc (v : Dec) (d : Int) (hd : pyDigits v.coeff ≤ 200) :
    truncInt (mulCtx v (decPow10 d)) = to_smallest_unit_exact v d := by
  unfold decPow10 to_smallest_unit_exact
  by_cases h1 : d < 0
  · rw [if_pos h1]
    simp only [mulCtx]
    rw [mul_one, Bool.xor_false, fixPrec_mk, if_pos hd]
  · rw [if_neg h1]
    by_cases h2 : d ≤ 199
    · rw [if_pos h2]
      simp only [mulCtx]
      rw [Bool.xor_false, fixPrec_trunc _ _ _ _ hd]
      congr 1
      simp only [Dec.mk.injEq, true_and]
      omega
    · rw [if_neg h2]
      simp only [mulCtx]
      rw [Bool.xor_false, fixPrec_trunc _ _ _ _ hd]
      congr 1
      simp only [Dec.mk.injEq, true_and]
      omega

theorem to_wei_exact (s : List Char) (d : Int) (v : Dec)
    (hw : endsWithWei (stripList s) = false)
    (hp : parseDecimalStr (stripList s) = some v)
    (hd : pyDigits v.coeff ≤ 200) :
    to_wei_with_decimals s d = some (to_smallest_unit_exact v d) := by
  unfold to_wei_with_decimals
  simp only [hw, Bool.false_eq_true, if_false, hp, Option.map_some']
  rw [mulCtx_decPow10_trunc v d hd]

/-! ## Claim theorems -/

/-- C3 (amended): for every well-formed non-wei decimal string whose written
significand has at most 200 significant digits (the context precision) and
every decimals value d, to_wei_with_decimals returns exactly the integer
part of s * 10^d with truncation toward zero; the four concrete values of
the claim hold as stated. -/
theorem C3_truncation_amended :
    (∀ (s : List Char) (d : Int) (v : Dec),
      endsWithWei (stripList s) = false →
      parseDecimalStr (stripList s) = some v →
      pyDigits v.coeff ≤ 200 →
      to_wei_with_decimals s d = some (to_smallest_unit_exact v d)) ∧
    to_wei_with_decimals "1".data 18 = some (10 ^ 18) ∧
    to_wei_with_decimals "0.000000000000000001".data 18 = some 1 ∧
    to_wei_with_decimals "1.0000000000000000009".data 18 = some (10 ^ 18) ∧
    to_wei_with_decimals "1.000000000000000001".data 18 = some (10 ^ 18 + 1) := by
  refine ⟨to_wei_exact, ?_, ?_, ?_, ?_⟩ <;> decide

/-- C3 witness: a concrete instance of the main conjunct. -/
theorem C3_truncation_witness :
    to_wei_with_decimals "2.5".data 18 = some (to_smallest_unit_exact ⟨false, 25, -1⟩ 18) :=
  C3_truncation_amended.1 "2.5".data 18 ⟨false, 25, -1⟩ (by decide) (by decide) (by decide)

/-- C3 counterexample: the decimal string 0.999...9 with 201 nines parses
exactly, but the conversion at 18 decimals rounds the 201-digit product UP
to 10^18 under the prec-200 context, while truncation toward zero of the
exact product is 10^18 - 1 — so the claim that the result always equals
the truncated exact product (never rounding up) is false. -/
theorem C3_counterexample :
    parseDecimalStr (stripList ('0' :: '.' :: List.replicate 201 '9')) =
      some ⟨false, 10 ^ 201 - 1, -201⟩ ∧
    to_wei_with_decimals ('0' :: '.' :: List.replicate 201 '9') 18 = some (10 ^ 18) ∧
    to_smallest_unit_exact ⟨false, 10 ^ 201 - 1, -201⟩ 18 = 10 ^ 18 - 1 ∧
    to_wei_with_decimals ('0' :: '.' :: List.replicate 201 '9') 18 ≠
      some (to_smallest_unit_exact ⟨false, 10 ^ 201 - 1, -201⟩ 18) := by
  refine ⟨?_, ?_, ?_, ?_⟩ <;> decide

/-- C8 (amended): a string ending in the literal suffix wei has the suffix
stripped and the remainder parsed as a base-10 integer literal only,
returned unchanged with no scaling (independent of decimals); a
0x-prefixed remainder is NOT accepted: int() with no base raises
ValueError, so the conversion fails. -/
theorem C8_wei_suffix_amended :
    (∀ (s : List Char) (d : Int) (n : Int),
      endsWithWei (stripList s) = true →
      parseIntBase10 ((stripList s).take ((stripList s).length - 3)) = some n →
      to_wei_with_decimals s d = some n) ∧
    (∀ d : Int, to_wei_with_decimals "0x5wei".data d = none) := by
  constructor
  · intro s d n hw hp
    unfold to_wei_with_decimals
    simp only [hw, if_true]
    exact hp
  · intro d
    rfl

/-- C8 witness: a concrete instance of the wei branch. -/
theorem C8_wei_suffix_witness : to_wei_with_decimals "5wei".data 18 = some 5 :=
  C8_wei_suffix_amended.1 "5wei".data 18 5 (by decide) (by decide)

/-- C8 counterexample: the claim says a 0x-prefixed hex remainder parses
successfully; on the code, int("0x5") raises ValueError, so the conversion
of "0x5wei" fails instead of returning 5. -/
theorem C8_counterexample : to_wei_with_decimals "0x5wei".data 18 = none := by decide

/-- C9: the formatter strips trailing zeros unconditionally, so the integer
value 100 (coefficient 100, exponent 0) renders as "1", not "100": the
integer part is NOT preserved and the rendering does not re-parse to the
same value, contradicting the claim; a fractional value such as 0.000005
renders correctly, and the comma grouping works on values the zero-strip
does not mangle. -/
theorem C9_formatter_bug :
    dec_to_fixed ⟨false, 100, 0⟩ = ['1'] ∧
    dec_to_fixed_commas ⟨false, 100, 0⟩ = ['1'] ∧
    natOfDigits (dec_to_fixed ⟨false, 100, 0⟩) ≠ 100 ∧
    dec_to_fixed ⟨false, 5, -6⟩ = "0.000005".data ∧
    dec_to_fixed_commas ⟨false, 1234567, 0⟩ = "1,234,567".data := by
  refine ⟨?_, ?_, ?_, ?_, ?_⟩ <;> decide

/-- C4: when the external decimals call exits with a nonzero status, run()
calls die(), which raises SystemExit; except Exception does not catch it,
so token_decimals aborts the whole invocation instead of returning 18 —
the claim that every failure falls back to 18 and proceeds is violated on
this path (and only on this path: an ordinary exception, an empty reply, a
hex reply and a malformed reply all do yield 18). -/
theorem C4_decimals_resolver_bug :
    token_decimals (.exitNonzero "execution reverted".data) = .error .sysExit ∧
    token_decimals .pyExc = .ok 18 ∧
    token_decimals (.ok "18".data) = .ok 18 ∧
    token_decimals (.ok "0x12".data) = .ok 18 ∧
    token_decimals (.ok "".data) = .ok 18 ∧
    token_decimals (.ok "garbage".data) = .ok 18 ∧
    lpAddEth ⟨.exitNonzero "e".data, 0, 0, 0, 0⟩ "1".data "1".data "0".data "0".data none =
      ⟨[], .error (.abort .sysExit)⟩ := by
  refine ⟨?_, ?_, ?_, ?_, ?_, ?_, ?_⟩ <;> decide

/-- Helper: a dropWhile result all of whose elements satisfy the predicate
is empty. -/
theorem dropWhile_all_eq_nil (p : Char → Bool) : ∀ l : List Char,
    (∀ x ∈ l.dropWhile p, p x = true) → l.dropWhile p = [] := by
  intro l
  induction l with
  | nil => intro _; rfl
  | cons c r ih =>
    intro h
    rw [List.dropWhile_cons] at h ⊢
    by_cases hc : p c = true
    · rw [if_pos hc] at h ⊢
      exact ih h
    · rw [if_neg hc] at h
      exact absurd (h c (by simp)) hc

/-- Helper: a reply that strips to nothing splits into no fields. -/
theorem splitWs_nil_of_strip_nil (raw : List Char) (h : stripList raw = []) :
    splitWs raw = [] := by
  have hdrop : raw.dropWhile Char.isWhitespace = [] := by
    unfold stripList at h
    have h1 : (raw.dropWhile Char.isWhitespace).reverse.dropWhile Char.isWhitespace = [] := by
      have := congrArg List.reverse h
      rwa [List.reverse_reverse, List.reverse_nil] at this
    rw [List.dropWhile_eq_nil_iff] at h1
    exact dropWhile_all_eq_nil _ raw (fun x hx => h1 x (List.mem_reverse.mpr hx))
  unfold splitWs
  cases hlen : raw.length with
  | zero => rfl
  | succ k =>
    show splitWsAux (k + 1) raw = []
    unfold splitWsAux
    simp [hdrop]

/-- C7 (amended): the handler raises the malformed-reserves error exactly
when the reply is nonempty but splits into fewer than two whitespace
fields (an empty reply raises a distinct empty-reply error first);
extraction reads the first and the THIRD field, so a reply of exactly two
fields passes the guard and then dies with an uncaught IndexError rather
than proceeding, and a reply of at least three fields whose first and
third fields parse as integers yields both values with no failure
attributable to the shape of the reply. -/
theorem C7_reserve_shape_amended :
    ∀ raw : List Char,
      ((reserveFields raw = .error .malformedReserves) ↔
        (stripList raw ≠ [] ∧ (splitWs raw).length < 2)) ∧
      (∀ p0 r0, (splitWs raw).length = 2 → (splitWs raw)[0]? = some p0 →
        parse_bigint p0 = some r0 → reserveFields raw = .error .indexError) ∧
      (∀ p0 p2 r0 r1, 3 ≤ (splitWs raw).length →
        (splitWs raw)[0]? = some p0 → (splitWs raw)[2]? = some p2 →
        parse_bigint p0 = some r0 → parse_bigint p2 = some r1 →
        reserveFields raw = .ok (r0, r1)) := by
  intro raw
  refine ⟨?_, ?_, ?_⟩
  · unfold reserveFields
    by_cases h1 : stripList raw = []
    · rw [if_pos h1]
      simp [h1]
    · rw [if_neg h1]
      by_cases h2 : (splitWs raw).length < 2
      · rw [if_pos h2]
        simp [h1, h2]
      · rw [if_neg h2]
        have hrhs : ¬ (stripList raw ≠ [] ∧ (splitWs raw).length < 2) :=
          fun hx => h2 hx.2
        simp only [hrhs, iff_false]
        intro habs
        split at habs
        · simp at habs
        · split at habs
          · simp at habs
          · split at habs
            · simp at habs
            · split at habs
              · simp at habs
              · simp at habs
  · intro p0 r0 hlen h0 hp
    have hne : stripList raw ≠ [] := by
      intro hs
      rw [splitWs_nil_of_strip_nil raw hs] at hlen
      simp at hlen
    unfold reserveFields
    rw [if_neg hne, if_neg (by omega)]
    have h2none : (splitWs raw)[2]? = none := List.getElem?_eq_none (by omega)
    simp only [h0, hp, h2none]
  · intro p0 p2 r0 r1 hlen h0 h2 hp0 hp2
    have hne : stripList raw ≠ [] := by
      intro hs
      rw [splitWs_nil_of_strip_nil raw hs] at hlen
      simp at hlen
    unfold reserveFields
    rw [if_neg hne, if_neg (by omega)]
    simp only [h0, hp0, h2, hp2]

/-- C7 witness: a three-field numeric reply extracts the first and third
fields (the third slot of a plain three-value reply is the reserve slot
the code reads). -/
theorem C7_reserve_shape_witness : reserveFields "1 2 3".data = .ok (1, 3) :=
  (C7_reserve_shape_amended "1 2 3".data).2.2 "1".data "3".data 1 3
    (by decide) (by decide) (by decide) (by decide) (by decide)

/-- C7 counterexample: a reply with exactly two numeric fields passes the
fewer-than-two guard but fails with an uncaught IndexError on parts[2],
contradicting the claim that any reply with at least two numeric fields is
extracted without a shape failure. -/
theorem C7_counterexample :
    splitWs "5 7".data = [['5'], ['7']] ∧
    parse_bigint ['5'] = some 5 ∧ parse_bigint ['7'] = some 7 ∧
    reserveFields "5 7".data = .error .indexError := by
  refine ⟨?_, ?_, ?_, ?_⟩ <;> decide

/-- C1: in lp:add-eth all four amounts are converted through
to_wei_with_decimals — the desired token amount and amountTokenMin with
the resolved token decimals, the desired native amount and amountETHMin
with 18 — and the values passed to the final addLiquidityETH call are
exactly those conversions (in particular amountTokenMin is the scaled
value, never the raw unscaled integer). -/
theorem C1_all_four_scaled :
    ∀ (ch : ChainAdd) (sTok sEth sTokMin sEthMin : List Char) (dl : Option Int)
      (d aTok aEth aTokMin aEthMin : Int),
      token_decimals ch.decimalsReply = .ok d →
      to_wei_with_decimals sTok d = some aTok →
      to_wei_with_decimals sEth 18 = some aEth →
      to_wei_with_decimals sTokMin d = some aTokMin →
      to_wei_with_decimals sEthMin 18 = some aEthMin →
      ¬ ch.torcBalance < aTok →
      ¬ ch.ethBalance < aEth →
      lpAddEth ch sTok sEth sTokMin sEthMin dl =
        ⟨approveTxs ch.allowance aTok ++
          [Tx.addLiquidityETH aTok aTokMin aEthMin (dl.getD (ch.timeNow + 300)) aEth],
         .ok ()⟩ := by
  intro ch sTok sEth sTokMin sEthMin dl d aTok aEth aTokMin aEthMin hd h1 h2 h3 h4 hb1 hb2
  unfold lpAddEth
  simp only [hd, h1, h2, h3, h4]
  rw [if_neg hb1, if_neg hb2]

/-- C1 witness: concrete add with token decimals 18, amountTokenMin "50"
scaled to 50 * 10^18. -/
theorem C1_witness :
    lpAddEth ⟨.ok "18".data, 10 ^ 30, 10 ^ 30, 0, 1000⟩ "20000".data "1.5".data
        "50".data "0.1".data none =
      ⟨approveTxs 0 (20000 * 10 ^ 18) ++
        [Tx.addLiquidityETH (20000 * 10 ^ 18) (50 * 10 ^ 18) (10 ^ 17) 1300
          (15 * 10 ^ 17)],
       .ok ()⟩ :=
  C1_all_four_scaled ⟨.ok "18".data, 10 ^ 30, 10 ^ 30, 0, 1000⟩ "20000".data "1.5".data
    "50".data "0.1".data none 18 (20000 * 10 ^ 18) (15 * 10 ^ 17) (50 * 10 ^ 18)
    (10 ^ 17) (by decide) (by decide) (by decide) (by decide) (by decide)
    (by decide) (by decide)

/-- C2: in both liquidity paths, a desired or requested amount strictly
above the corresponding preflight balance makes the handler fail with an
insufficient-balance error and submit zero transactions. -/
theorem C2_balance_guard :
    (∀ (ch : ChainAdd) (sTok sEth sTokMin sEthMin : List Char) (dl : Option Int)
      (d aTok aEth aTokMin aEthMin : Int),
      token_decimals ch.decimalsReply = .ok d →
      to_wei_with_decimals sTok d = some aTok →
      to_wei_with_decimals sEth 18 = some aEth →
      to_wei_with_decimals sTokMin d = some aTokMin →
      to_wei_with_decimals sEthMin 18 = some aEthMin →
      (ch.torcBalance < aTok ∨ ch.ethBalance < aEth) →
      (lpAddEth ch sTok sEth sTokMin sEthMin dl).txs = [] ∧
        isInsufficient (lpAddEth ch sTok sEth sTokMin sEthMin dl).res = true) ∧
    (∀ (sup : Bool) (ch : ChainRemove) (liq sTokMin sEthMin : List Char)
      (dl : Option Int) (aTokMin aEthMin L : Int),
      parseIntBase10 sTokMin = some aTokMin →
      parseIntBase10 sEthMin = some aEthMin →
      ch.pairAddr.map Char.toLower ≠ zeroAddrChars →
      resolveLiquidity ch.lpBalance (stripList liq) = .ok L →
      ch.lpBalance < L →
      (lpRemoveEth sup ch liq sTokMin sEthMin dl).txs = [] ∧
        isInsufficient (lpRemoveEth sup ch liq sTokMin sEthMin dl).res = true) := by
  constructor
  · intro ch sTok sEth sTokMin sEthMin dl d aTok aEth aTokMin aEthMin hd h1 h2 h3 h4 hor
    unfold lpAddEth
    simp only [hd, h1, h2, h3, h4]
    rcases hor with hlt | hlt
    · rw [if_pos hlt]
      exact ⟨rfl, rfl⟩
    · by_cases h7 : ch.torcBalance < aTok
      · rw [if_pos h7]
        exact ⟨rfl, rfl⟩
      · rw [if_neg h7, if_pos hlt]
        exact ⟨rfl, rfl⟩
  · intro sup ch liq sTokMin sEthMin dl aTokMin aEthMin L hp1 hp2 hpair hres hL
    unfold lpRemoveEth
    simp only [hp1, hp2]
    rw [if_neg hpair]
    simp only [hres]
    rw [if_pos hL]
    exact ⟨rfl, rfl⟩

/-- C2 witness: a concrete instance of each conjunct. -/
theorem C2_witness :
    ((lpAddEth ⟨.ok "18".data, 0, 0, 0, 0⟩ "1".data "0".data "0".data "0".data
        none).txs = [] ∧
      isInsufficient (lpAddEth ⟨.ok "18".data, 0, 0, 0, 0⟩ "1".data "0".data "0".data
        "0".data none).res = true) ∧
    ((lpRemoveEth false ⟨"0xabc".data, 5, 0, 0⟩ "6wei".data "0".data "0".data
        none).txs = [] ∧
      isInsufficient (lpRemoveEth false ⟨"0xabc".data, 5, 0, 0⟩ "6wei".data "0".data
        "0".data none).res = true) :=
  ⟨C2_balance_guard.1 ⟨.ok "18".data, 0, 0, 0, 0⟩ "1".data "0".data "0".data "0".data
      none 18 (10 ^ 18) 0 0 0 (by decide) (by decide) (by decide) (by decide)
      (by decide) (Or.inl (by decide)),
   C2_balance_guard.2 false ⟨"0xabc".data, 5, 0, 0⟩ "6wei".data "0".data "0".data
      none 0 0 6 (by decide) (by decide) (by decide) (by decide) (by decide)⟩

/-- C6: the approval helper emits no transaction when the current
allowance already covers the amount, emits exactly the reset-to-zero and
set-exact pair otherwise, and a second run with the same amount (after the
first has taken effect on the allowance) emits nothing, so two
consecutive calls emit at most one pair in total. -/
theorem C6_allowance_two_step :
    ∀ current r : Int,
      (r ≤ current → approveTxs current r = []) ∧
      (current < r → approveTxs current r = [Tx.approve 0, Tx.approve r]) ∧
      approveTxs (allowanceAfter current (approveTxs current r)) r = [] ∧
      (approveTxs current r).length +
        (approveTxs (allowanceAfter current (approveTxs current r)) r).length ≤ 2 := by
  intro current r
  by_cases h : current < r
  · refine ⟨fun hle => absurd h (by omega), fun _ => by simp [approveTxs, h], ?_, ?_⟩
    · simp [approveTxs, allowanceAfter, allowanceAfterTx, h]
    · simp [approveTxs, allowanceAfter, allowanceAfterTx, h]
  · refine ⟨fun _ => by simp [approveTxs, h], fun hlt => absurd hlt h, ?_, ?_⟩
    · simp [approveTxs, allowanceAfter, allowanceAfterTx, h]
    · simp [approveTxs, allowanceAfter, allowanceAfterTx, h]

/-- C6 witness: a concrete pair emission and the no-op second call. -/
theorem C6_allowance_witness :
    approveTxs 3 10 = [Tx.approve 0, Tx.approve 10] ∧
    approveTxs (allowanceAfter 3 (approveTxs 3 10)) 10 = [] :=
  ⟨(C6_allowance_two_step 3 10).2.1 (by decide), (C6_allowance_two_step 3 10).2.2.1⟩

/-- C10: with the literal all and a nonzero LP balance, the remove handler
approves and submits exactly the snapshotted balance as the liquidity
amount, the requested-versus-balance guard cannot fail, and the invocation
succeeds. -/
theorem C10_remove_all :
    ∀ (sup : Bool) (ch : ChainRemove) (sTokMin sEthMin : List Char) (dl : Option Int)
      (aTokMin aEthMin : Int),
      parseIntBase10 sTokMin = some aTokMin →
      parseIntBase10 sEthMin = some aEthMin →
      ch.pairAddr.map Char.toLower ≠ zeroAddrChars →
      ch.lpBalance ≠ 0 →
      lpRemoveEth sup ch "all".data sTokMin sEthMin dl =
        ⟨approveTxs ch.allowance ch.lpBalance ++
          [Tx.removeLiquidityETH sup ch.lpBalance aTokMin aEthMin
            (dl.getD (ch.timeNow + 300))],
         .ok ()⟩ := by
  intro sup ch sTokMin sEthMin dl aTokMin aEthMin h1 h2 hpair hbal
  unfold lpRemoveEth
  simp only [h1, h2]
  rw [if_neg hpair]
  have hstrip : stripList "all".data = ['a', 'l', 'l'] := by decide
  rw [hstrip]
  unfold resolveLiquidity
  rw [if_pos rfl, if_neg hbal]
  simp only []
  rw [if_neg (lt_irrefl ch.lpBalance)]

/-- C10 witness: concrete removal of the whole balance. -/
theorem C10_remove_all_witness :
    lpRemoveEth false ⟨"0xabc".data, 7, 0, 0⟩ "all".data "0".data "0".data none =
      ⟨approveTxs 0 7 ++ [Tx.removeLiquidityETH false 7 0 0 300], .ok ()⟩ :=
  C10_remove_all false ⟨"0xabc".data, 7, 0, 0⟩ "0".data "0".data none 0 0
    (by decide) (by decide) (by decide) (by decide)

/-- C5 (amended): for every pair state with nonzero reserves (bounded by
10^200, which covers the uint112 reserve type), the price is the single
correctly rounded (200 significant digits, half to even) division of
reserveEth * 10^decTorc by reserveTorc * 10^decOther — i.e. the context
rounding of the exact ratio (reserveB / 10^decB) / (reserveA / 10^decA) —
with the reserve slots resolved by comparing the queried token address
case-insensitively against the recorded token0, never by argument order;
the concrete reserves of the claim yield the value 0.000005 exactly. -/
theorem C5_price_rounded_ratio :
    (∀ (t0 torc : List Char) (r0 r1 dT dO : Nat),
      0 < r0 → 0 < r1 → r0 < 10 ^ 200 → r1 < 10 ^ 200 →
      (t0.map Char.toLower = torc.map Char.toLower →
        quotePriceCore t0 torc (r0 : Int) (r1 : Int) (dT : Int) (dO : Int) =
          .ok (roundedRatio200 r1 r0 dT dO, (r0 : Int), (r1 : Int))) ∧
      (t0.map Char.toLower ≠ torc.map Char.toLower →
        quotePriceCore t0 torc (r0 : Int) (r1 : Int) (dT : Int) (dO : Int) =
          .ok (roundedRatio200 r0 r1 dT dO, (r1 : Int), (r0 : Int)))) ∧
    valEq (roundedRatio200 (10 * 10 ^ 18) (2000000 * 10 ^ 18) 18 18) ⟨false, 5, -6⟩ := by
  constructor
  · intro t0 torc r0 r1 dT dO h0 h1 hb0 hb1
    have hd0 : decOfInt (r0 : Int) = ⟨false, r0, 0⟩ := by
      unfold decOfInt
      rw [if_neg (by omega)]
      simp
    have hd1 : decOfInt (r1 : Int) = ⟨false, r1, 0⟩ := by
      unfold decOfInt
      rw [if_neg (by omega)]
      simp
    constructor
    · intro hmatch
      unfold quotePriceCore
      rw [if_pos hmatch]
      rw [if_neg (by push_cast; omega)]
      rw [hd0, hd1, quote_div_chain r1 r0 dT dO h1 h0 hb1 hb0]
    · intro hmatch
      unfold quotePriceCore
      rw [if_neg hmatch]
      rw [if_neg (by push_cast; omega)]
      rw [hd0, hd1, quote_div_chain r0 r1 dT dO h0 h1 hb0 hb1]
  · decide

/-- C5 witness: the concrete pair state of the claim, through the slot
assignment with a case-insensitively matching token0. -/
theorem C5_price_witness :
    quotePriceCore "0xa".data "0xA".data ((2000000 * 10 ^ 18 : Nat) : Int)
        ((10 * 10 ^ 18 : Nat) : Int) ((18 : Nat) : Int) ((18 : Nat) : Int) =
      .ok (roundedRatio200 (10 * 10 ^ 18) (2000000 * 10 ^ 18) 18 18,
        ((2000000 * 10 ^ 18 : Nat) : Int), ((10 * 10 ^ 18 : Nat) : Int)) :=
  (C5_price_rounded_ratio.1 "0xa".data "0xA".data (2000000 * 10 ^ 18) (10 * 10 ^ 18)
    18 18 (by norm_num) (by norm_num) (by norm_num) (by norm_num)).1 (by decide)

/-- C5 counterexample: with reserves 3 and 1 (both decimals 0) the exact
ratio is 1/3, but the returned price is the 200-digit rounded value
0.333...3, whose value times 3 is 10^200 - 1 over 10^200, not 1 — so the
claim that quote_price returns EXACTLY the reserve ratio is false. -/
theorem C5_price_counterexample :
    quote_torc_price_per_eth "3 0 1".data "0xab".data "0xAB".data 0 0 =
      .ok (⟨false, (10 ^ 200 - 1) / 3, -200⟩, 3, 1) ∧
    qnum ⟨false, (10 ^ 200 - 1) / 3, -200⟩ * 3 ≠
      (qden ⟨false, (10 ^ 200 - 1) / 3, -200⟩ : Int) := by
  refine ⟨?_, ?_⟩ <;> decide
